import Mathlib

/-!
Verification of the NCAL study app core (question-bank parser, answer
normalizer, session engine, CSV preparation) against its natural-language
specification.  The JavaScript sources are shallowly embedded: strings are
processed as lists of characters, JS machine behaviour (32-bit coercion,
sparse arrays, falsy defaulting) is made explicit, and host primitives
(JSON.parse, Math.random, Date.now) are modelled as explicit parameters or
standalone definitions.
-/

namespace Ncal

/-- The JavaScript whitespace set recognised by String.prototype.trim and
the regexp class backslash-s: tab, LF, VT, FF, CR, space, NBSP, and the
Unicode space separators, line/paragraph separators and BOM. -/
def isJsWs (c : Char) : Bool :=
  c = ' ' ∨ c = '\t' ∨ c = '\n' ∨ c.toNat = 0xb ∨ c.toNat = 0xc ∨ c = '\r' ∨
  c.toNat = 0xa0 ∨ c.toNat = 0x1680 ∨
  (0x2000 ≤ c.toNat ∧ c.toNat ≤ 0x200a) ∨
  c.toNat = 0x2028 ∨ c.toNat = 0x2029 ∨ c.toNat = 0x202f ∨
  c.toNat = 0x205f ∨ c.toNat = 0x3000 ∨ c.toNat = 0xfeff

/-- Char-list version of String.prototype.trim: drop JS whitespace from
both ends. -/
def jsTrimList (l : List Char) : List Char :=
  ((l.dropWhile isJsWs).reverse.dropWhile isJsWs).reverse

/-- String.prototype.trim. -/
def jsTrim (s : String) : String :=
  String.mk (jsTrimList s.data)

/-- String.prototype.toUpperCase restricted to the ASCII range (the only
range exercised by this code base): lowercase ASCII letters are mapped to
uppercase, every other character is left unchanged. -/
def upChar (c : Char) : Char :=
  if 97 ≤ c.toNat ∧ c.toNat ≤ 122 then Char.ofNat (c.toNat - 32) else c

/-- JS String.prototype.split with a single-character separator, on char
lists.  Splitting the empty string yields one empty field, matching JS. -/
def splitChar (sep : Char) : List Char → List (List Char)
  | [] => [[]]
  | c :: rest =>
    if c = sep then [] :: splitChar sep rest
    else
      match splitChar sep rest with
      | [] => [[c]]
      | f :: fs => (c :: f) :: fs

/-- String-level wrapper for splitChar. -/
def jsSplit (sep : Char) (s : String) : List String :=
  (splitChar sep s.data).map String.mk

/-- Worker for the field splitter of parser.js (splitOnUnescapedSemicolons):
scans the character list, carrying the current field.  A backslash before a
semicolon or another backslash emits the escaped character and consumes two
characters; an unescaped semicolon closes the current field; anything else
(including a trailing or non-escaping backslash) is appended verbatim.  The
final field is always emitted. -/
def splitFieldsGo : List Char → List Char → List (List Char)
  | [], cur => [cur]
  | '\\' :: ';' :: rest, cur => splitFieldsGo rest (cur ++ [';'])
  | '\\' :: '\\' :: rest, cur => splitFieldsGo rest (cur ++ ['\\'])
  | ';' :: rest, cur => cur :: splitFieldsGo rest []
  | c :: rest, cur => splitFieldsGo rest (cur ++ [c])

/-- parser.js splitOnUnescapedSemicolons. -/
def splitOnUnescapedSemicolons (line : String) : List String :=
  (splitFieldsGo line.data []).map String.mk

/-- JSON values.  Numbers keep their source lexeme: the parser only ever
asks whether a value is a string or an array, never for numeric value. -/
inductive Json where
  | null : Json
  | bool (b : Bool) : Json
  | num (lexeme : String) : Json
  | str (s : String) : Json
  | arr (elems : List Json) : Json
  | obj (fields : List (String × Json)) : Json

/-- JSON insignificant whitespace (space, tab, LF, CR). -/
def jsonWs (c : Char) : Bool :=
  c = ' ' ∨ c = '\t' ∨ c = '\n' ∨ c = '\r'

/-- Characters that may occur in a JSON number lexeme. -/
def jsonNumChar (c : Char) : Bool :=
  c.isDigit ∨ c = '-' ∨ c = '+' ∨ c = '.' ∨ c = 'e' ∨ c = 'E'

/-- Grammar check for a JSON number lexeme:
optional minus, integer part (0 or nonzero-led digits), optional fraction,
optional exponent. -/
def jsonNumOk (l : List Char) : Bool :=
  let afterMinus := match l with
    | '-' :: rest => rest
    | _ => l
  let intPart : Option (List Char) := match afterMinus with
    | '0' :: rest => some rest
    | c :: rest => if c.isDigit then some (rest.dropWhile Char.isDigit) else none
    | [] => none
  match intPart with
  | none => false
  | some afterInt =>
    let afterFrac : Option (List Char) := match afterInt with
      | '.' :: c :: rest => if c.isDigit then some (rest.dropWhile Char.isDigit) else none
      | '.' :: [] => none
      | _ => some afterInt
    match afterFrac with
    | none => false
    | some afterF =>
      match afterF with
      | [] => true
      | e :: rest =>
        if e = 'e' ∨ e = 'E' then
          let digs := match rest with
            | '+' :: r => r
            | '-' :: r => r
            | _ => rest
          match digs with
          | [] => false
          | c :: r => c.isDigit && (r.dropWhile Char.isDigit).isEmpty
        else false

/-- Decode a hexadecimal digit. -/
def hexVal (c : Char) : Option Nat :=
  if '0' ≤ c ∧ c ≤ '9' then some (c.toNat - 48)
  else if 'a' ≤ c ∧ c ≤ 'f' then some (c.toNat - 87)
  else if 'A' ≤ c ∧ c ≤ 'F' then some (c.toNat - 55)
  else none

/-- Parse the body of a JSON string (the opening quote already consumed),
returning the decoded string and the remaining input.  Surrogate escapes
outside the scalar range decode to the null character (JS, a UTF-16 host,
would keep the lone surrogate; no claim depends on such inputs). -/
def jsonStringBody : List Char → String → Except String (String × List Char)
  | [], _ => .error "Unterminated string in JSON"
  | '"' :: rest, acc => .ok (acc, rest)
  | '\\' :: e :: rest, acc =>
    match e with
    | '"' => jsonStringBody rest (acc.push '"')
    | '\\' => jsonStringBody rest (acc.push '\\')
    | '/' => jsonStringBody rest (acc.push '/')
    | 'b' => jsonStringBody rest (acc.push (Char.ofNat 8))
    | 'f' => jsonStringBody rest (acc.push (Char.ofNat 12))
    | 'n' => jsonStringBody rest (acc.push '\n')
    | 'r' => jsonStringBody rest (acc.push '\r')
    | 't' => jsonStringBody rest (acc.push '\t')
    | 'u' =>
      match rest with
      | h1 :: h2 :: h3 :: h4 :: rest2 =>
        match hexVal h1, hexVal h2, hexVal h3, hexVal h4 with
        | some a, some b, some c, some d =>
          jsonStringBody rest2 (acc.push (Char.ofNat (((a * 16 + b) * 16 + c) * 16 + d)))
        | _, _, _, _ => .error "Bad Unicode escape in JSON"
      | _ => .error "Bad Unicode escape in JSON"
    | _ => .error "Bad escaped character in JSON"
  | c :: rest, acc =>
    if c.toNat < 0x20 then .error "Bad control character in JSON string"
    else jsonStringBody rest (acc.push c)

mutual

/-- Recursive-descent parser for a JSON value.  Fuel bounds the nesting
depth; every bracket consumes one input character before recursing, so
input length plus one is always enough fuel. -/
def jsonValue (fuel : Nat) (l : List Char) : Except String (Json × List Char) :=
  match fuel with
  | 0 => .error "JSON input too deeply nested"
  | fuel + 1 =>
    match l.dropWhile jsonWs with
    | [] => .error "Unexpected end of JSON input"
    | 'n' :: 'u' :: 'l' :: 'l' :: rest => .ok (.null, rest)
    | 't' :: 'r' :: 'u' :: 'e' :: rest => .ok (.bool true, rest)
    | 'f' :: 'a' :: 'l' :: 's' :: 'e' :: rest => .ok (.bool false, rest)
    | '"' :: rest =>
      match jsonStringBody rest "" with
      | .error m => .error m
      | .ok (s, rest2) => .ok (.str s, rest2)
    | '[' :: rest => jsonArrayItems fuel rest []
    | '{' :: rest => jsonObjectItems fuel rest []
    | c :: rest =>
      if jsonNumChar c then
        let lex := (c :: rest).takeWhile jsonNumChar
        if jsonNumOk lex then .ok (.num (String.mk lex), (c :: rest).dropWhile jsonNumChar)
        else .error "Invalid number in JSON"
      else .error "Unexpected token in JSON"

/-- Parse the items of a JSON array (opening bracket consumed). -/
def jsonArrayItems (fuel : Nat) (l : List Char) (acc : List Json) :
    Except String (Json × List Char) :=
  match fuel with
  | 0 => .error "JSON input too deeply nested"
  | fuel + 1 =>
    match l.dropWhile jsonWs with
    | ']' :: rest =>
      if acc.isEmpty then .ok (.arr [], rest)
      else .error "Unexpected token in JSON"
    | l2 =>
      match jsonValue fuel l2 with
      | .error m => .error m
      | .ok (v, rest) =>
        match rest.dropWhile jsonWs with
        | ',' :: rest2 => jsonArrayItems fuel rest2 (acc ++ [v])
        | ']' :: rest2 => .ok (.arr (acc ++ [v]), rest2)
        | _ => .error "Expected comma or closing bracket in JSON array"

/-- Parse the members of a JSON object (opening brace consumed). -/
def jsonObjectItems (fuel : Nat) (l : List Char) (acc : List (String × Json)) :
    Except String (Json × List Char) :=
  match fuel with
  | 0 => .error "JSON input too deeply nested"
  | fuel + 1 =>
    match l.dropWhile jsonWs with
    | '}' :: rest =>
      if acc.isEmpty then .ok (.obj [], rest)
      else .error "Unexpected token in JSON"
    | '"' :: rest =>
      match jsonStringBody rest "" with
      | .error m => .error m
      | .ok (k, rest2) =>
        match rest2.dropWhile jsonWs with
        | ':' :: rest3 =>
          match jsonValue fuel rest3 with
          | .error m => .error m
          | .ok (v, rest4) =>
            match rest4.dropWhile jsonWs with
            | ',' :: rest5 => jsonObjectItems fuel rest5 (acc ++ [(k, v)])
            | '}' :: rest5 => .ok (.obj (acc ++ [(k, v)]), rest5)
            | _ => .error "Expected comma or closing brace in JSON object"
        | _ => .error "Expected colon in JSON object"
    | _ => .error "Expected property name in JSON object"

end

/-- Models the host JSON.parse builtin (a platform primitive, not
repository code): parse one JSON value and require only whitespace to
follow.  Error messages are abbreviated stand-ins for the engine-specific
SyntaxError messages; no claim depends on their exact text. -/
def jsonParse (s : String) : Except String Json :=
  match jsonValue (s.data.length + 1) s.data with
  | .error m => .error m
  | .ok (v, rest) =>
    if (rest.dropWhile jsonWs).isEmpty then .ok v
    else .error "Unexpected non-whitespace character after JSON data"

/-- Coerce an integer to the signed 32-bit range, as the JS ToInt32
abstract operation does for bitwise operators. -/
def toInt32 (n : Int) : Int :=
  (n + 2 ^ 31) % 2 ^ 32 - 2 ^ 31

/-- Base-36 digit characters, as produced by Number.prototype.toString(36)
(lowercase). -/
def base36Digit (n : Nat) : Char :=
  (("0123456789abcdefghijklmnopqrstuvwxyz".data).getD n '0')

/-- Digits of n in base 36, most significant first. -/
def toBase36Go (n : Nat) (acc : List Char) : List Char :=
  if h : n = 0 then acc
  else toBase36Go (n / 36) (base36Digit (n % 36) :: acc)
termination_by n
decreasing_by exact Nat.div_lt_self (Nat.pos_of_ne_zero h) (by omega)

/-- Number.prototype.toString(36) for a non-negative integer. -/
def toBase36 (n : Nat) : String :=
  if n = 0 then "0" else String.mk (toBase36Go n [])

/-- parser.js generateId: the 32-bit rolling hash
hash = (hash shifted left by 5) - hash + codeunit, coerced to Int32 at each
step, rendered via Math.abs(...).toString(36).  Char codes model
String.prototype.charCodeAt on the basic multilingual plane. -/
def generateId (content : String) : String :=
  let hash := content.data.foldl
    (fun (hash : Int) c => toInt32 (toInt32 (hash * 32) - hash + c.toNat)) 0
  toBase36 hash.natAbs

/-- A successfully parsed question record (parser.js parseQuestionLine's
success object). -/
structure Question where
  id : String
  category : String
  subjectBroad : String
  subjectSpecific : String
  question : String
  answers : List String
  level : String
  author : String
  deriving Repr, DecidableEq

/-- A structured per-line parse failure (parser.js parseQuestionLine's
error object). -/
structure ParseError where
  filename : String
  line : Nat
  reason : String
  rawLine : String
  deriving Repr, DecidableEq

/-- The three possible outcomes of parseQuestionLine: null for a blank
line, a record, or a structured error. -/
inductive LineResult where
  | blank : LineResult
  | ok (q : Question) : LineResult
  | err (e : ParseError) : LineResult
  deriving Repr, DecidableEq

/-- parser.js isValidLevel: membership in the fixed level list, tested on
the field exactly as split (no trimming). -/
def isValidLevel (level : String) : Bool :=
  ["Freshman", "Junior Varsity", "Varsity"].contains level

/-- One element of the parsed answers array is acceptable when it is a
JSON string that is non-empty after trimming (the every-callback of
parser.js line 102). -/
def answerOk (j : Json) : Bool :=
  match j with
  | .str s => jsTrim s ≠ ""
  | _ => false

/-- The string payload of a JSON value (empty for non-strings; only applied
under the answerOk guard, mirroring the map of parser.js line 130). -/
def jsonAsString (j : Json) : String :=
  match j with
  | .str s => s
  | _ => ""

/-- parser.js parseQuestionLine: blank lines yield null; otherwise the
line is split on unescaped semicolons and validated step by step, the
first failing check producing the error object the JS catch builds from
the thrown message. -/
def parseQuestionLine (line filename : String) (lineNumber : Nat) : LineResult :=
  if jsTrim line = "" then .blank
  else
    let mkErr : String → LineResult :=
      fun reason => .err ⟨filename, lineNumber, reason, line⟩
    match splitOnUnescapedSemicolons line with
    | [category, question, answersJson, level, author] =>
      if jsTrim category = "" then mkErr "Category cannot be empty"
      else if jsTrim question = "" then mkErr "Question cannot be empty"
      else
        match jsonParse answersJson with
        | .error m => mkErr ("Invalid JSON in answers field: " ++ m)
        | .ok answers =>
          match answers with
          | .arr elems =>
            if elems.length = 0 then mkErr "Answers must be a non-empty array"
            else if ¬ elems.all answerOk then mkErr "All answers must be non-empty strings"
            else if ¬ isValidLevel level then mkErr ("Unknown level: " ++ level)
            else if jsTrim author = "" then mkErr "Author cannot be empty"
            else
              let subjectParts := jsSplit '>' category
              let subjectBroad := subjectParts.headD ""
              let subjectSpecific :=
                if subjectParts.length > 1 then subjectParts.getD 1 "" else category
              { id := generateId (category ++ question ++ level ++ author)
                category := jsTrim category
                subjectBroad := jsTrim subjectBroad
                subjectSpecific := jsTrim subjectSpecific
                question := jsTrim question
                answers := elems.map (fun j => jsTrim (jsonAsString j))
                level := jsTrim level
                author := jsTrim author : Question } |> .ok
          | _ => mkErr "Answers must be a non-empty array"
    | fields => mkErr ("Expected 5 fields, got " ++ toString fields.length)

/-- Aggregate result of parser.js parseQuestionBank. -/
structure BankResult where
  questions : List Question
  errors : List ParseError
  totalLines : Nat
  validQuestions : Nat
  errorCount : Nat
  deriving Repr, DecidableEq

/-- The forEach body of parseQuestionBank: push a parsed record onto the
questions accumulator, push an error onto the errors accumulator, skip a
blank line. -/
def bankStep (filename : String) (acc : List Question × List ParseError)
    (p : Nat × String) : List Question × List ParseError :=
  match parseQuestionLine p.2 filename (p.1 + 1) with
  | .blank => acc
  | .ok q => (acc.1 ++ [q], acc.2)
  | .err e => (acc.1, acc.2 ++ [e])

/-- parser.js parseQuestionBank: split the content on newlines, classify
every line with parseQuestionLine (1-based line numbers), push records and
errors in encounter order, and report the aggregate counts. -/
def parseQuestionBank (content filename : String) : BankResult :=
  let lines := jsSplit '\n' content
  let qe := lines.enum.foldl (bankStep filename) ([], [])
  { questions := qe.1
    errors := qe.2
    totalLines := lines.length
    validQuestions := qe.1.length
    errorCount := qe.2.length }

/-- normalize.js step 3: String.prototype.replaceAll of hyphen by space. -/
def replaceHyphens (l : List Char) : List Char :=
  l.map (fun c => if c = '-' then ' ' else c)

/-- The character class of the regexp literal in normalize.js line 22.
In that literal the doubly-escaped bracket closes the class early: the
class body reads dot comma bang question colon double-quote single-quote
parens escaped-backslash open-bracket, and the first unescaped closing
bracket ends it.  The class therefore contains the eleven characters
below, and open-brace, close-brace, close-bracket are NOT in it. -/
def punctClass (c : Char) : Bool :=
  c ∈ ['.', ',', '!', '?', ':', '"', '\'', '(', ')', '\\', '[']

/-- normalize.js step 4 as the regexp actually behaves: after the early
class close, the pattern is one class character followed by the literal
three characters open-brace close-brace close-bracket.  A global replace
removes each such four-character match in a single left-to-right scan;
a lone punctuation character never matches. -/
def removePunct : List Char → List Char
  | c :: '{' :: '}' :: ']' :: rest =>
    if punctClass c then removePunct rest
    else c :: removePunct ('{' :: '}' :: ']' :: rest)
  | c :: rest => c :: removePunct rest
  | [] => []

/-- Scanner for normalize.js step 5 (the global replace of a whitespace
run by one space): inRun records whether the scanner is inside a
whitespace run whose single replacement space has already been emitted. -/
def collapseWsGo (inRun : Bool) : List Char → List Char
  | [] => []
  | c :: rest =>
    if isJsWs c then
      if inRun then collapseWsGo true rest
      else ' ' :: collapseWsGo true rest
    else c :: collapseWsGo false rest

/-- normalize.js step 5: each maximal run of JS whitespace collapses to a
single space. -/
def collapseWs (l : List Char) : List Char :=
  collapseWsGo false l

/-- normalize.js step 6: the anchored regexp stripping one leading
article, alternatives tried in source order (THE, A, AN), applied once. -/
def stripArticle (l : List Char) : List Char :=
  if l.take 4 = "THE ".data then l.drop 4
  else if l.take 2 = "A ".data then l.drop 2
  else if l.take 3 = "AN ".data then l.drop 3
  else l

/-- The normalization pipeline on char lists, stages in source order:
trim, uppercase, hyphens to spaces, punctuation-pattern removal,
whitespace collapsing, article stripping. -/
def normalizeList (l : List Char) : List Char :=
  stripArticle (collapseWs (removePunct (replaceHyphens ((jsTrimList l).map upChar))))

/-- normalize.js normalize. -/
def normalize (s : String) : String :=
  String.mk (normalizeList s.data)

/-- normalize.js isCorrect: some answer normalizes to the normalized
user input. -/
def isCorrect (userInput : String) (answersArray : List String) : Bool :=
  let u := normalize userInput
  answersArray.any (fun a => normalize a = u)

/-- One entry of appState.userAnswers (the object literals written by
submitAnswer and handleTimeout): answer text, correctness string
(Correct, Incorrect or Timeout), elapsed seconds, epoch-millisecond
timestamp. -/
structure UserAnswer where
  answer : String
  correctness : String
  timeElapsed : Nat
  timestamp : Nat
  deriving Repr, DecidableEq

/-- Write v at index i of a JS array, padding with holes (none) when i is
past the end, as a JS indexed assignment does. -/
def setSparse (l : List (Option α)) (i : Nat) (v : α) : List (Option α) :=
  if i < l.length then l.set i (some v)
  else l ++ List.replicate (i - l.length) none ++ [some v]

/-- One subject checkbox of the setup screen: its value attribute, checked
state and disabled state. -/
structure Checkbox where
  value : String
  checked : Bool
  disabled : Bool
  deriving Repr, DecidableEq

/-- The filter-relevant DOM state: the subject checkboxes and the value of
the checked level radio (the empty string denotes the All-Levels radio). -/
structure FilterDom where
  boxes : List Checkbox
  level : String
  deriving Repr, DecidableEq

/-- getActiveFilters, subject half: values of the checked checkboxes. -/
def selectedSubjects (dom : FilterDom) : List String :=
  (dom.boxes.filter (fun b => b.checked)).map (fun b => b.value)

/-- app.js selectAllSubjects: check every checkbox that is not disabled
(also the body of selectAllAvailableSubjects, which is identical). -/
def selectAllSubjects (dom : FilterDom) : FilterDom :=
  { dom with boxes := dom.boxes.map (fun b => if b.disabled then b else { b with checked := true }) }

/-- Checking the radio whose value is the empty string (the second
fallback of startPracticeSession) clears the level filter. -/
def clearLevelFilter (dom : FilterDom) : FilterDom :=
  { dom with level := "" }

/-- ui.js updateSubjectSelector: disable (and uncheck) every checkbox
whose value is not the category of any loaded question. -/
def updateSubjectSelector (questions : List Question) (dom : FilterDom) : FilterDom :=
  { dom with boxes := dom.boxes.map (fun b =>
      let hasQuestions := questions.any (fun q => q.category == b.value)
      { b with disabled := !hasQuestions,
               checked := if !hasQuestions then false else b.checked }) }

/-- The filter predicate of filterQuestions: an empty subject selection
matches every category, an empty level matches every level. -/
def questionMatches (subjects : List String) (level : String) (q : Question) : Bool :=
  (subjects.isEmpty || subjects.contains q.category) && ((level == "") || (q.level == level))

/-- Fisher-Yates shuffle (app.js shuffleArray) on an array, the random
draw for index i supplied by the oracle rand; Math.floor(Math.random() *
(i + 1)) always lies in 0..i, which the modulus enforces for an arbitrary
oracle. -/
def shuffleGo (rand : Nat → Nat) (arr : Array α) (i : Nat) : Array α :=
  match i with
  | 0 => arr
  | i + 1 =>
    let j := rand (i + 1) % (i + 2)
    shuffleGo rand (arr.swap! (i + 1) j) i

/-- app.js shuffleArray on lists: loop i from the last index down to 1,
swapping position i with the drawn position j in 0..i. -/
def shuffleArray (rand : Nat → Nat) (l : List α) : List α :=
  match l.length with
  | 0 => l
  | n + 1 => (shuffleGo rand l.toArray n).toList

/-- app.js filterQuestions: filter the pool by the active subject and
level selection, then randomize the order; returns the filtered list
(appState.filteredQuestions, whose length the JS function returns). -/
def filterQuestions (rand : Nat → Nat) (pool : List Question) (dom : FilterDom) :
    List Question :=
  shuffleArray rand (pool.filter (questionMatches (selectedSubjects dom) dom.level))

/-- The filter-resolution prefix of startPracticeSession: take the
filtered set; when empty, apply the three fallbacks in source order
(select all subjects when none selected, clear the level filter, select
all available subjects), stopping at the first non-empty result; when all
fail, signal exhaustion (the announceError early return) with none. -/
def resolveFilters (rand : Nat → Nat) (pool : List Question) (dom : FilterDom) :
    Option (FilterDom × List Question) :=
  let ws := filterQuestions rand pool dom
  if ws.length ≠ 0 then some (dom, ws)
  else
    let firstTry : FilterDom × List Question :=
      if (selectedSubjects dom).length = 0 then
        let dom2 := selectAllSubjects dom
        (dom2, filterQuestions rand pool dom2)
      else (dom, ws)
    if firstTry.2.length ≠ 0 then some firstTry
    else
      let dom3 := clearLevelFilter firstTry.1
      let ws3 := filterQuestions rand pool dom3
      if ws3.length ≠ 0 then some (dom3, ws3)
      else
        let dom4 := selectAllSubjects dom3
        let ws4 := filterQuestions rand pool dom4
        if ws4.length ≠ 0 then some (dom4, ws4)
        else none

/-- The timer-relevant application state (the fields of appState touched
by the timer lifecycle, answer recording and session teardown).  timer is
the live countdown interval together with its closure counter timeLeft
(none: no interval scheduled); textRevealTimer is the progressive-reveal
interval id. -/
structure AppState where
  filteredQuestions : List Question
  currentQuestionIndex : Nat
  userAnswers : List (Option UserAnswer)
  timeAllocated : Nat
  timer : Option Nat
  textRevealTimer : Option Nat
  isPaused : Bool
  isSessionActive : Bool
  deriving Repr, DecidableEq

/-- handleTimeout: record the timeout answer at the current question
index (empty answer text, Timeout correctness, the full time allocation
as elapsed time, the current epoch time). -/
def handleTimeout (now : Nat) (st : AppState) : AppState :=
  let record : UserAnswer :=
    { answer := "", correctness := "Timeout",
      timeElapsed := st.timeAllocated, timestamp := now }
  { st with userAnswers := setSparse st.userAnswers st.currentQuestionIndex record }

/-- One tick of the interval scheduled by startTimer: when paused, no
effect; otherwise decrement the closure counter, and on reaching zero
clear the interval and run handleTimeout. -/
def timerTick (now : Nat) (st : AppState) : AppState :=
  match st.timer with
  | none => st
  | some timeLeft =>
    if st.isPaused then st
    else if timeLeft - 1 = 0 then handleTimeout now { st with timer := none }
    else { st with timer := some (timeLeft - 1) }

/-- startTimer: clear any previous interval and schedule a fresh countdown
from the full time allocation. -/
def startTimer (st : AppState) : AppState :=
  { st with timer := some st.timeAllocated }

/-- endSession: deactivate the session and clear both the countdown
interval and the progressive-reveal interval. -/
def endSession (st : AppState) : AppState :=
  { st with isSessionActive := false, timer := none, textRevealTimer := none }

/-- nextQuestion: advance the cursor; past the last question the session
ends (endSession before the summary), otherwise the next question is
displayed and a fresh timer starts. -/
def nextQuestion (st : AppState) : AppState :=
  let st := { st with currentQuestionIndex := st.currentQuestionIndex + 1 }
  if st.currentQuestionIndex ≥ st.filteredQuestions.length then endSession st
  else startTimer st

/-- resetFilters: re-check all enabled subject checkboxes, check the
All-Levels radio and show the setup screen.  It touches only the DOM
state; appState (in particular both interval fields) is left as is. -/
def resetFilters (st : AppState) (dom : FilterDom) : AppState × FilterDom :=
  (st, clearLevelFilter (selectAllSubjects dom))

/-- One output row of csv.js prepareSessionResultsForCsv. -/
structure CsvRow where
  questionId : String
  category : String
  subjectSpecific : String
  level : String
  question : String
  userAnswer : String
  correctness : String
  timeAllocatedSec : Nat
  timeElapsedSec : Nat
  author : String
  timestamp : String
  deriving Repr, DecidableEq

/-- JS falsy-defaulting for strings: the empty string falls back. -/
def jsOrString (s fallback : String) : String :=
  if s = "" then fallback else s

/-- JS falsy-defaulting for numbers: zero falls back. -/
def jsOrNat (n fallback : Nat) : Nat :=
  if n = 0 then fallback else n

/-- The map body of prepareSessionResultsForCsv: build the export row for
the question at one index, reading the possibly missing answer record
with the JS object-default and falsy-default semantics of the source. -/
def csvRowFor (userAnswers : List (Option UserAnswer)) (timeAllocated : Nat)
    (timestamp : String) (p : Nat × Question) : CsvRow :=
  let q := p.2
  let userAnswer := userAnswers.getD p.1 none
  { questionId := q.id
    category := q.category
    subjectSpecific := q.subjectSpecific
    level := q.level
    question := q.question
    userAnswer := jsOrString (match userAnswer with
      | some r => r.answer
      | none => "") ""
    correctness := jsOrString (match userAnswer with
      | some r => r.correctness
      | none => "") "Incorrect"
    timeAllocatedSec := timeAllocated
    timeElapsedSec := jsOrNat (match userAnswer with
      | some r => r.timeElapsed
      | none => 0) 0
    author := q.author
    timestamp := timestamp }

/-- csv.js prepareSessionResultsForCsv: one row per question, in order,
reading userAnswers[index] with an empty-object default so that a missing
entry exports an empty answer, Incorrect correctness and zero elapsed
time.  The shared timestamp (getCurrentTimestamp, a Date.now wrapper) is
passed in, computed once per export. -/
def prepareSessionResultsForCsv (questions : List Question)
    (userAnswers : List (Option UserAnswer)) (timeAllocated : Nat)
    (timestamp : String) : List CsvRow :=
  questions.enum.map (csvRowFor userAnswers timeAllocated timestamp)

/-! ## Field splitter: accumulator lemmas and the scanning rules (C2) -/

/-- Prepend a chunk to the first field of a split result (the effect of a
non-empty accumulator on the eventual first field). -/
def prependFirst (p : List Char) : List (List Char) → List (List Char)
  | [] => [p]
  | f :: fs => (p ++ f) :: fs

/-- String-level version of prependFirst. -/
def strPrepend (p : String) : List String → List String
  | [] => [p]
  | f :: fs => (p ++ f) :: fs

theorem prependFirst_prependFirst (a b : List Char) (S : List (List Char)) :
    prependFirst a (prependFirst b S) = prependFirst (a ++ b) S := by
  cases S <;> simp [prependFirst]

theorem map_mk_prependFirst (p : List Char) (S : List (List Char)) :
    (prependFirst p S).map String.mk = strPrepend (String.mk p) (S.map String.mk) := by
  cases S with
  | nil => simp [prependFirst, strPrepend]
  | cons f fs =>
    simp only [prependFirst, strPrepend, List.map_cons]
    rfl

theorem splitFieldsGo_acc (l c0 : List Char) :
    ∀ cur, splitFieldsGo l cur = prependFirst cur (splitFieldsGo l []) := by
  induction l, c0 using splitFieldsGo.induct with
  | case1 _ => intro cur; simp [splitFieldsGo, prependFirst]
  | case2 rest _ ih =>
    intro cur
    show splitFieldsGo rest (cur ++ [';']) = _
    rw [ih (cur ++ [';'])]
    show _ = prependFirst cur (splitFieldsGo rest ([] ++ [';']))
    rw [ih ([] ++ [';'])]
    simp [prependFirst_prependFirst]
  | case3 rest _ ih =>
    intro cur
    show splitFieldsGo rest (cur ++ ['\\']) = _
    rw [ih (cur ++ ['\\'])]
    show _ = prependFirst cur (splitFieldsGo rest ([] ++ ['\\']))
    rw [ih ([] ++ ['\\'])]
    simp [prependFirst_prependFirst]
  | case4 rest _ ih =>
    intro cur
    show cur :: splitFieldsGo rest [] = prependFirst cur ([] :: splitFieldsGo rest [])
    simp [prependFirst]
  | case5 c rest _ h1 h2 h3 ih =>
    intro cur
    rw [splitFieldsGo.eq_5 cur c rest h1 h2 h3, splitFieldsGo.eq_5 [] c rest h1 h2 h3,
      ih (cur ++ [c]), ih ([] ++ [c])]
    simp [prependFirst_prependFirst]

theorem splitFieldsGo_ne_nil (l c0 : List Char) : splitFieldsGo l c0 ≠ [] := by
  induction l, c0 using splitFieldsGo.induct <;> simp_all [splitFieldsGo]

theorem split_esc_semi (rest : List Char) :
    splitOnUnescapedSemicolons (String.mk ('\\' :: ';' :: rest)) =
      strPrepend ";" (splitOnUnescapedSemicolons (String.mk rest)) := by
  show (splitFieldsGo ('\\' :: ';' :: rest) []).map String.mk = _
  rw [splitFieldsGo.eq_2, splitFieldsGo_acc rest [] ([] ++ [';']), map_mk_prependFirst]
  rfl

theorem split_esc_backslash (rest : List Char) :
    splitOnUnescapedSemicolons (String.mk ('\\' :: '\\' :: rest)) =
      strPrepend "\\" (splitOnUnescapedSemicolons (String.mk rest)) := by
  show (splitFieldsGo ('\\' :: '\\' :: rest) []).map String.mk = _
  rw [splitFieldsGo.eq_3, splitFieldsGo_acc rest [] ([] ++ ['\\']), map_mk_prependFirst]
  rfl

theorem split_sep (rest : List Char) :
    splitOnUnescapedSemicolons (String.mk (';' :: rest)) =
      "" :: splitOnUnescapedSemicolons (String.mk rest) := by
  show (splitFieldsGo (';' :: rest) []).map String.mk = _
  rw [splitFieldsGo.eq_4]
  rfl

theorem split_other (c : Char) (rest : List Char) (hb : c ≠ '\\') (hs : c ≠ ';') :
    splitOnUnescapedSemicolons (String.mk (c :: rest)) =
      strPrepend (String.mk [c]) (splitOnUnescapedSemicolons (String.mk rest)) := by
  show (splitFieldsGo (c :: rest) []).map String.mk = _
  rw [splitFieldsGo.eq_5 [] c rest (fun _ hc _ => hb hc) (fun _ hc _ => hb hc)
      (fun hc => hs hc),
    splitFieldsGo_acc rest [] ([] ++ [c]), map_mk_prependFirst]
  rfl

theorem split_lone_backslash (rest : List Char) (hs : rest.head? ≠ some ';')
    (hb : rest.head? ≠ some '\\') :
    splitOnUnescapedSemicolons (String.mk ('\\' :: rest)) =
      strPrepend "\\" (splitOnUnescapedSemicolons (String.mk rest)) := by
  cases rest with
  | nil => decide
  | cons d rest2 =>
    show (splitFieldsGo ('\\' :: d :: rest2) []).map String.mk = _
    rw [splitFieldsGo.eq_5 [] '\\' (d :: rest2)
        (fun r1 _ hh => hs (by rw [hh]; rfl)
  )
        (fun r1 _ hh => hb (by rw [hh]; rfl))
        (fun hc => by exact absurd hc (by decide)),
      splitFieldsGo_acc (d :: rest2) [] ([] ++ ['\\']), map_mk_prependFirst]
    rfl

/-- Claim C2 (amended: the two example lines are six characters long, not
seven): the field splitter scans character by character; a backslash
immediately followed by a semicolon emits a literal semicolon consuming
two characters, a backslash immediately followed by a backslash emits a
literal backslash consuming two characters, an unescaped semicolon ends
the current field and starts a new one, any other character (including a
backslash not followed by a semicolon or backslash) is appended to the
current field, and the final field is always emitted; splitting the
six-character line a-backslash-semicolon-b-semicolon-c yields the two
fields (a;b) and (c), and the six-character line
x-backslash-backslash-y-semicolon-z yields the two fields (x-backslash-y)
and (z). -/
theorem ncal_c2_splitter :
    (∀ s : String, splitOnUnescapedSemicolons s ≠ []) ∧
    splitOnUnescapedSemicolons "" = [""] ∧
    (∀ rest : List Char, splitOnUnescapedSemicolons (String.mk ('\\' :: ';' :: rest)) =
      strPrepend ";" (splitOnUnescapedSemicolons (String.mk rest))) ∧
    (∀ rest : List Char, splitOnUnescapedSemicolons (String.mk ('\\' :: '\\' :: rest)) =
      strPrepend "\\" (splitOnUnescapedSemicolons (String.mk rest))) ∧
    (∀ rest : List Char, splitOnUnescapedSemicolons (String.mk (';' :: rest)) =
      "" :: splitOnUnescapedSemicolons (String.mk rest)) ∧
    (∀ (c : Char) (rest : List Char), c ≠ '\\' → c ≠ ';' →
      splitOnUnescapedSemicolons (String.mk (c :: rest)) =
      strPrepend (String.mk [c]) (splitOnUnescapedSemicolons (String.mk rest))) ∧
    (∀ rest : List Char, rest.head? ≠ some ';' → rest.head? ≠ some '\\' →
      splitOnUnescapedSemicolons (String.mk ('\\' :: rest)) =
      strPrepend "\\" (splitOnUnescapedSemicolons (String.mk rest))) ∧
    splitOnUnescapedSemicolons "a\\;b;c" = ["a;b", "c"] ∧
    ("a\\;b;c" : String).length = 6 ∧
    splitOnUnescapedSemicolons "x\\\\y;z" = ["x\\y", "z"] ∧
    ("x\\\\y;z" : String).length = 6 := by
  refine ⟨?_, by decide, split_esc_semi, split_esc_backslash, split_sep, split_other,
    split_lone_backslash, by decide, by decide, by decide, by decide⟩
  intro s
  show (splitFieldsGo s.data []).map String.mk ≠ []
  simp [splitFieldsGo_ne_nil]

/-- Claim C2 counterexample: the line named by the claim,
a-backslash-semicolon-b-semicolon-c, does not have seven characters (it
has six), so the claimed seven-character line with that splitting does
not exist. -/
theorem ncal_c2_counterexample :
    ¬ (("a\\;b;c" : String).length = 7 ∧
       splitOnUnescapedSemicolons "a\\;b;c" = ["a;b", "c"]) := by
  decide

/-- Claim C2 witness: the scanning rules of ncal_c2_splitter applied at
concrete inputs (a regular character, and a backslash not followed by an
escapable character). -/
theorem ncal_c2_splitter_witness :
    splitOnUnescapedSemicolons (String.mk ('q' :: "x;y".data)) =
      strPrepend (String.mk ['q']) (splitOnUnescapedSemicolons (String.mk "x;y".data)) ∧
    splitOnUnescapedSemicolons (String.mk ('\\' :: "qr".data)) =
      strPrepend "\\" (splitOnUnescapedSemicolons (String.mk "qr".data)) :=
  ⟨ncal_c2_splitter.2.2.2.2.2.1 'q' "x;y".data (by decide) (by decide),
   ncal_c2_splitter.2.2.2.2.2.2.1 "qr".data (by decide) (by decide)⟩

/-! ## Bank parsing is total and per-line (C1) -/

/-- The record produced by a line result, if any. -/
def lineOk : LineResult → Option Question
  | .ok q => some q
  | _ => none

/-- The parse error produced by a line result, if any. -/
def lineErr : LineResult → Option ParseError
  | .err e => some e
  | _ => none

theorem parseQuestionLine_of_blank (line filename : String) (n : Nat)
    (h : jsTrim line = "") : parseQuestionLine line filename n = .blank := by
  simp [parseQuestionLine, h]

theorem parseQuestionLine_err_nonblank (line filename : String) (n : Nat)
    (e : ParseError) (h : parseQuestionLine line filename n = .err e) :
    jsTrim line ≠ "" := by
  intro hb
  rw [parseQuestionLine_of_blank line filename n hb] at h
  exact LineResult.noConfusion h

theorem bankFold (filename : String) (xs : List (Nat × String))
    (q0 : List Question) (e0 : List ParseError) :
    xs.foldl (bankStep filename) (q0, e0) =
      (q0 ++ xs.filterMap (fun p => lineOk (parseQuestionLine p.2 filename (p.1 + 1))),
       e0 ++ xs.filterMap (fun p => lineErr (parseQuestionLine p.2 filename (p.1 + 1)))) := by
  induction xs generalizing q0 e0 with
  | nil => simp
  | cons x xs ih =>
    simp only [List.foldl_cons, List.filterMap_cons]
    cases hp : parseQuestionLine x.2 filename (x.1 + 1) with
    | blank => simp [bankStep, hp, lineOk, lineErr, ih]
    | ok q => simp [bankStep, hp, lineOk, lineErr, ih]
    | err e => simp [bankStep, hp, lineOk, lineErr, ih]

/-- Claim C1: parseQuestionBank is total by construction and classifies
every line independently: the questions list is exactly the in-order
records of the successfully parsed lines, the errors list is exactly the
in-order errors of the malformed lines (all of which are non-blank),
validQuestions and errorCount are the lengths of those lists, a blank
line contributes neither a record nor an error, and (by the filterMap
characterization) no line influences any other line's contribution. -/
theorem ncal_c1_parse_bank (content filename : String) :
    (parseQuestionBank content filename).questions =
      (jsSplit '\n' content).enum.filterMap
        (fun p => lineOk (parseQuestionLine p.2 filename (p.1 + 1))) ∧
    (parseQuestionBank content filename).errors =
      (jsSplit '\n' content).enum.filterMap
        (fun p => lineErr (parseQuestionLine p.2 filename (p.1 + 1))) ∧
    (parseQuestionBank content filename).validQuestions =
      (parseQuestionBank content filename).questions.length ∧
    (parseQuestionBank content filename).errorCount =
      (parseQuestionBank content filename).errors.length ∧
    (parseQuestionBank content filename).totalLines =
      (jsSplit '\n' content).length ∧
    (∀ e ∈ (parseQuestionBank content filename).errors,
      ∃ p ∈ (jsSplit '\n' content).enum,
        parseQuestionLine p.2 filename (p.1 + 1) = .err e ∧ jsTrim p.2 ≠ "") ∧
    (∀ p ∈ (jsSplit '\n' content).enum, jsTrim p.2 = "" →
      parseQuestionLine p.2 filename (p.1 + 1) = .blank) := by
  have hfold := bankFold filename (jsSplit '\n' content).enum [] []
  have hq : (parseQuestionBank content filename).questions =
      (jsSplit '\n' content).enum.filterMap
        (fun p => lineOk (parseQuestionLine p.2 filename (p.1 + 1))) := by
    show ((jsSplit '\n' content).enum.foldl (bankStep filename) ([], [])).1 = _
    rw [hfold]
    simp
  have he : (parseQuestionBank content filename).errors =
      (jsSplit '\n' content).enum.filterMap
        (fun p => lineErr (parseQuestionLine p.2 filename (p.1 + 1))) := by
    show ((jsSplit '\n' content).enum.foldl (bankStep filename) ([], [])).2 = _
    rw [hfold]
    simp
  refine ⟨hq, he, rfl, rfl, rfl, ?_, ?_⟩
  · intro e he2
    rw [he] at he2
    obtain ⟨p, hp, hpe⟩ := List.mem_filterMap.mp he2
    refine ⟨p, hp, ?_, ?_⟩
    · cases hr : parseQuestionLine p.2 filename (p.1 + 1) with
      | blank => simp [hr, lineErr] at hpe
      | ok q => simp [hr, lineErr] at hpe
      | err e2 => simp [hr, lineErr] at hpe; simp [hpe]
    · cases hr : parseQuestionLine p.2 filename (p.1 + 1) with
      | blank => simp [hr, lineErr] at hpe
      | ok q => simp [hr, lineErr] at hpe
      | err e2 => exact parseQuestionLine_err_nonblank p.2 filename (p.1 + 1) e2 hr
  · intro p _ hblank
    exact parseQuestionLine_of_blank p.2 filename (p.1 + 1) hblank


/-- Claim C1 witness: the per-line characterization applied to a concrete
three-line bank whose second line is blank. -/
theorem ncal_c1_parse_bank_witness :
    parseQuestionLine "" "bank.txt" 2 = LineResult.blank :=
  (ncal_c1_parse_bank "a;b\n\nc" "bank.txt").2.2.2.2.2.2 (1, "") (by decide) (by decide)

/-! ## Level validation (C6) -/

theorem isValidLevel_trim_self (l : String) (h : isValidLevel l) : l = jsTrim l := by
  have hmem : l = "Freshman" ∨ l = "Junior Varsity" ∨ l = "Varsity" := by
    have := h
    simp [isValidLevel, List.contains] at this
    tauto
  rcases hmem with h1 | h1 | h1 <;> subst h1 <;> decide

/-- Claim C6 (amended: the level field is validated before trimming, so a
valid level surrounded by whitespace is rejected): for a line that splits
into five fields and passes every validation before the level check,
parseQuestionLine accepts the line if and only if the raw (untrimmed)
level field is exactly one of Freshman, Junior Varsity, Varsity; on
acceptance the record stores the trimmed level (the raw and trimmed value
coincide for valid levels), and otherwise the result is a ParseError with
reason Unknown level: followed by the raw field value. -/
theorem ncal_c6_level_validation (line filename : String) (n : Nat)
    (c q a l u : String) (xs : List Json)
    (hsplit : splitOnUnescapedSemicolons line = [c, q, a, l, u])
    (hnb : jsTrim line ≠ "") (hc : jsTrim c ≠ "") (hq : jsTrim q ≠ "")
    (hjson : jsonParse a = .ok (.arr xs)) (hne : xs.length ≠ 0)
    (hall : xs.all answerOk) (hu : jsTrim u ≠ "") :
    ((∃ r : Question, parseQuestionLine line filename n = .ok r ∧ r.level = jsTrim l) ↔
      isValidLevel l) ∧
    (¬ isValidLevel l →
      parseQuestionLine line filename n =
        .err ⟨filename, n, "Unknown level: " ++ l, line⟩) := by
  by_cases hv : isValidLevel l
  · constructor
    · constructor
      · intro _
        exact hv
      · intro _
        simp [parseQuestionLine, hnb, hsplit, hc, hq, hjson, hne, hall, hv, hu]
    · intro hcontra
      exact absurd hv hcontra
  · constructor
    · constructor
      · intro ⟨r, hr, _⟩
        exfalso
        simp [parseQuestionLine, hnb, hsplit, hc, hq, hjson, hne, hall, hv, hu] at hr
      · intro hcontra
        exact absurd hcontra hv
    · intro _
      simp [parseQuestionLine, hnb, hsplit, hc, hq, hjson, hne, hall, hv, hu]

/-- Claim C6 counterexample: the claim asserts that a level field
consisting of a valid level surrounded by whitespace parses successfully;
the code rejects it, because isValidLevel is applied to the raw field. -/
theorem ncal_c6_counterexample :
    parseQuestionLine "Cat;Q;[\"A\"]; Freshman ;Auth" "bank.txt" 1 =
      .err ⟨"bank.txt", 1, "Unknown level:  Freshman ",
        "Cat;Q;[\"A\"]; Freshman ;Auth"⟩ := by
  decide

/-- Claim C6 witness: the amended theorem applied to a concrete fully
valid line, and to a concrete line with an unknown level. -/
theorem ncal_c6_level_validation_witness :
    ((∃ r : Question,
        parseQuestionLine "Cat;Q;[\"A\"];Freshman;Auth" "w.txt" 3 = .ok r ∧
        r.level = jsTrim "Freshman") ↔ isValidLevel "Freshman") ∧
    parseQuestionLine "Cat;Q;[\"A\"];Sophomore;Auth" "w.txt" 4 =
      .err ⟨"w.txt", 4, "Unknown level: Sophomore", "Cat;Q;[\"A\"];Sophomore;Auth"⟩ :=
  ⟨(ncal_c6_level_validation "Cat;Q;[\"A\"];Freshman;Auth" "w.txt" 3
      "Cat" "Q" "[\"A\"]" "Freshman" "Auth" [.str "A"]
      (by decide) (by decide) (by decide) (by decide) (by rfl)
      (by decide) (by decide) (by decide)).1,
   (ncal_c6_level_validation "Cat;Q;[\"A\"];Sophomore;Auth" "w.txt" 4
      "Cat" "Q" "[\"A\"]" "Sophomore" "Auth" [.str "A"]
      (by decide) (by decide) (by decide) (by decide) (by rfl)
      (by decide) (by decide) (by decide)).2 (by decide)⟩


/-! ## Subject extraction from the category field (C7) -/

theorem splitChar_ne_nil (sep : Char) (l : List Char) : splitChar sep l ≠ [] := by
  induction l with
  | nil => simp [splitChar]
  | cons c rest ih =>
    by_cases hc : c = sep
    · simp [splitChar, hc]
    · cases h : splitChar sep rest with
      | nil => exact absurd h ih
      | cons f fs => simp [splitChar, hc, h]

theorem splitChar_head (sep : Char) (l : List Char) :
    ∃ fs, splitChar sep l = l.takeWhile (fun d => d != sep) :: fs := by
  induction l with
  | nil => exact ⟨[], rfl⟩
  | cons c rest ih =>
    by_cases hc : c = sep
    · refine ⟨splitChar sep rest, ?_⟩
      simp [splitChar, hc, List.takeWhile_cons]
    · obtain ⟨fs, hfs⟩ := ih
      refine ⟨fs, ?_⟩
      simp [splitChar, hc, hfs, List.takeWhile_cons, bne_iff_ne]

theorem splitChar_no_sep (sep : Char) (l : List Char) (h : l.contains sep = false) :
    splitChar sep l = [l] := by
  induction l with
  | nil => rfl
  | cons c rest ih =>
    simp only [List.contains_cons, Bool.or_eq_false_iff, beq_eq_false_iff_ne] at h
    have hrest := ih h.2
    have hc : ¬ c = sep := fun hcc => h.1 hcc.symm
    simp [splitChar, hc, hrest]

theorem splitChar_append_sep (sep : Char) (b rest : List Char)
    (hb : b.contains sep = false) :
    splitChar sep (b ++ sep :: rest) = b :: splitChar sep rest := by
  induction b with
  | nil =>
    simp [splitChar]
  | cons x b2 ih =>
    simp only [List.contains_cons, Bool.or_eq_false_iff, beq_eq_false_iff_ne] at hb
    have hx : ¬ x = sep := fun hxx => hb.1 hxx.symm
    have := ih hb.2
    simp [splitChar, hx, this]

theorem parse_ok_subjectSpecific (line filename : String) (n : Nat)
    (c q a l u : String) (r : Question)
    (hsplit : splitOnUnescapedSemicolons line = [c, q, a, l, u])
    (hok : parseQuestionLine line filename n = .ok r) :
    r.subjectSpecific =
      jsTrim (if (jsSplit '>' c).length > 1 then (jsSplit '>' c).getD 1 "" else c) := by
  unfold parseQuestionLine at hok
  rw [hsplit] at hok
  by_cases h1 : jsTrim line = "" <;> simp only [h1, if_true, if_false, reduceIte] at hok
  · exact absurd hok (by simp)
  · split at hok
    · exact absurd hok (by simp)
    · split at hok
      · exact absurd hok (by simp)
      · split at hok
        · exact absurd hok (by simp)
        · split at hok
          · split at hok
            · exact absurd hok (by simp)
            · split at hok
              · exact absurd hok (by simp)
              · split at hok
                · exact absurd hok (by simp)
                · split at hok
                  · exact absurd hok (by simp)
                  · rw [LineResult.ok.injEq] at hok
                    subst hok
                    rfl
          · exact absurd hok (by simp)

/-- Claim C7 (amended: for a category with more than one delimiter,
subjectSpecific is only the second delimiter-separated segment, not the
whole remainder): for every successfully parsed record, subjectSpecific
is the trimmed full category when the category field contains no
delimiter, and otherwise the trimmed run of characters strictly between
the first delimiter and the following delimiter (if any); in particular
for the category A-gt-B-gt-C it is B, not B-gt-C. -/
theorem ncal_c7_subject_specific (line filename : String) (n : Nat)
    (c q a l u : String) (r : Question)
    (hsplit : splitOnUnescapedSemicolons line = [c, q, a, l, u])
    (hok : parseQuestionLine line filename n = .ok r) :
    (c.data.contains '>' = false → r.subjectSpecific = jsTrim c) ∧
    (∀ b rest : List Char, c.data = b ++ '>' :: rest → b.contains '>' = false →
      r.subjectSpecific = jsTrim (String.mk (rest.takeWhile (fun d => d != '>')))) := by
  have hss := parse_ok_subjectSpecific line filename n c q a l u r hsplit hok
  constructor
  · intro hnosep
    rw [hss]
    have : splitChar '>' c.data = [c.data] := splitChar_no_sep '>' c.data hnosep
    simp [jsSplit, this]
  · intro b rest hshape hb
    rw [hss]
    obtain ⟨fs, hfs⟩ := splitChar_head '>' rest
    have : splitChar '>' c.data = b :: rest.takeWhile (fun d => d != '>') :: fs := by
      rw [hshape, splitChar_append_sep '>' b rest hb, hfs]
    simp [jsSplit, this]

/-- Claim C7 counterexample: parsing a line whose category is A-gt-B-gt-C
succeeds with subjectSpecific equal to B, whereas the claim requires the
entire remainder after the first delimiter, B-gt-C. -/
theorem ncal_c7_counterexample :
    (lineOk (parseQuestionLine "A>B>C;Q;[\"A\"];Freshman;Auth" "bank.txt" 1)).map
        Question.subjectSpecific = some "B" ∧ ("B" : String) ≠ "B>C" := by
  decide

/-- Claim C7 witness: the amended theorem applied to the concrete line
with category A-gt-B-gt-C, yielding subjectSpecific B. -/
theorem ncal_c7_subject_specific_witness :
    (lineOk (parseQuestionLine "A>B>C;Q;[\"A\"];Freshman;Auth" "w.txt" 1)).map
        Question.subjectSpecific =
      some (jsTrim (String.mk ("B>C".data.takeWhile (fun d => d != '>')))) := by
  obtain ⟨r, hok⟩ : ∃ r : Question,
      parseQuestionLine "A>B>C;Q;[\"A\"];Freshman;Auth" "w.txt" 1 = .ok r := ⟨_, rfl⟩
  have h2 := (ncal_c7_subject_specific "A>B>C;Q;[\"A\"];Freshman;Auth" "w.txt" 1
    "A>B>C" "Q" "[\"A\"]" "Freshman" "Auth" r (by decide) hok).2
    ['A'] "B>C".data (by decide) (by decide)
  rw [hok]
  simp [lineOk, h2]


/-! ## Timeout recording (C8), session teardown (C9), CSV rows (C10) -/

theorem getD_setSparse (l : List (Option α)) (i : Nat) (v : α) :
    (setSparse l i v).getD i none = some v := by
  unfold setSparse
  by_cases h : i < l.length
  · simp [h, List.getElem?_set_self]
  · have hle : l.length ≤ i := Nat.le_of_not_lt h
    simp only [h, if_false, reduceIte, List.getD_eq_getElem?_getD]
    rw [List.append_assoc, List.getElem?_append_right hle]
    rw [List.getElem?_append_right (by simp)]
    simp [Nat.sub_self]

theorem getD_setSparse_ne (l : List (Option α)) (i j : Nat) (v : α) (hij : j ≠ i) :
    (setSparse l i v).getD j none = l.getD j none := by
  unfold setSparse
  by_cases h : i < l.length
  · simp [h, List.getElem?_set_ne (fun hh => hij hh.symm)]
  · have hle : l.length ≤ i := Nat.le_of_not_lt h
    simp only [h, if_false, reduceIte, List.getD_eq_getElem?_getD]
    by_cases hj : j < l.length
    · rw [List.append_assoc, List.getElem?_append_left hj]
    · have hjle : l.length ≤ j := Nat.le_of_not_lt hj
      rw [List.append_assoc, List.getElem?_append_right hjle]
      have hnone : l[j]? = none := List.getElem?_eq_none hjle
      rw [hnone]
      rcases Nat.lt_or_ge (j - l.length) (i - l.length) with hlt | hge
      · rw [List.getElem?_append_left (by simpa using hlt)]
        simp [List.getElem?_replicate, hlt]
      · have hgt : i - l.length < j - l.length := by omega
        rw [List.getElem?_append_right (by simpa using Nat.le_of_lt hgt)]
        have hpos : 0 < j - l.length - (List.replicate (i - l.length) (none : Option α)).length := by
          simp only [List.length_replicate]
          omega
        match hm : j - l.length - (List.replicate (i - l.length) (none : Option α)).length with
        | 0 => omega
        | k + 1 => simp

/-- Claim C8: when the countdown interval fires with one second left on an
unpaused question, the engine clears the interval and records at the
current question index exactly the answer record with empty answer text,
Timeout correctness, and the full configured time allocation as the
elapsed seconds; every other index of the answer log is untouched. -/
theorem ncal_c8_timeout_record (now : Nat) (st : AppState)
    (hlive : st.timer = some 1) (hp : st.isPaused = false) :
    (timerTick now st).userAnswers.getD st.currentQuestionIndex none =
      some { answer := "", correctness := "Timeout",
             timeElapsed := st.timeAllocated, timestamp := now } ∧
    (timerTick now st).timer = none ∧
    (∀ j : Nat, j ≠ st.currentQuestionIndex →
      (timerTick now st).userAnswers.getD j none = st.userAnswers.getD j none) := by
  have htick : timerTick now st = handleTimeout now { st with timer := none } := by
    unfold timerTick
    rw [hlive]
    simp [hp]
  rw [htick]
  unfold handleTimeout
  refine ⟨?_, rfl, ?_⟩
  · exact getD_setSparse st.userAnswers st.currentQuestionIndex _
  · intro j hj
    exact getD_setSparse_ne st.userAnswers st.currentQuestionIndex j _ hj

/-- A concrete active-session state whose countdown has one second left. -/
def expiringState : AppState :=
  { filteredQuestions := [], currentQuestionIndex := 0, userAnswers := [],
    timeAllocated := 10, timer := some 1, textRevealTimer := none,
    isPaused := false, isSessionActive := true }

/-- Claim C8 witness: a concrete session whose timer expires. -/
theorem ncal_c8_timeout_record_witness :
    (timerTick 777 expiringState).userAnswers.getD 0 none =
      some { answer := "", correctness := "Timeout",
             timeElapsed := 10, timestamp := 777 } :=
  (ncal_c8_timeout_record 777 expiringState rfl rfl).1

/-- A concrete active-session state with both intervals live, about to
leave the Active state. -/
def activeState : AppState :=
  { filteredQuestions := [], currentQuestionIndex := 0, userAnswers := [],
    timeAllocated := 10, timer := some 5, textRevealTimer := some 3,
    isPaused := false, isSessionActive := true }

/-- The DOM filter state used alongside activeState. -/
def activeDom : FilterDom :=
  { boxes := [], level := "Varsity" }

/-- Claim C9: of the three exit paths from an active session, manual end
and natural completion run endSession, which cancels both the countdown
interval and the progressive-reveal interval; the reset path
(resetFilters) cancels neither: at a state with a live countdown and a
live reveal interval it leaves both running and the session flagged
active, the dangling-callback hazard the specification forbids. -/
theorem ncal_c9_exit_paths :
    (∀ st : AppState, (endSession st).timer = none ∧
      (endSession st).textRevealTimer = none ∧
      (endSession st).isSessionActive = false) ∧
    (nextQuestion activeState).timer = none ∧
    (nextQuestion activeState).textRevealTimer = none ∧
    (resetFilters activeState activeDom).1.timer = some 5 ∧
    (resetFilters activeState activeDom).1.textRevealTimer = some 3 ∧
    (resetFilters activeState activeDom).1.isSessionActive = true := by
  refine ⟨?_, by decide, by decide, by decide, by decide, by decide⟩
  intro st
  exact ⟨rfl, rfl, rfl⟩

/-- Claim C10: the CSV preparation emits exactly one row per question of
the working set, in order, all rows sharing the single export timestamp;
an index with no recorded answer exports an empty user answer, Incorrect
correctness (no distinct unanswered marker) and zero elapsed seconds,
while an index with a recorded answer (whose correctness string is one of
the non-empty values the engine writes) exports the recorded answer text,
correctness and elapsed time. -/
theorem ncal_c10_csv_rows (questions : List Question)
    (userAnswers : List (Option UserAnswer)) (timeAllocated : Nat)
    (timestamp : String) :
    (prepareSessionResultsForCsv questions userAnswers timeAllocated timestamp).length =
      questions.length ∧
    (∀ (i : Nat) (q : Question), questions[i]? = some q →
      ∃ row : CsvRow,
        (prepareSessionResultsForCsv questions userAnswers timeAllocated timestamp)[i]? =
          some row ∧
        row.questionId = q.id ∧ row.category = q.category ∧
        row.subjectSpecific = q.subjectSpecific ∧ row.level = q.level ∧
        row.question = q.question ∧ row.author = q.author ∧
        row.timeAllocatedSec = timeAllocated ∧ row.timestamp = timestamp ∧
        (userAnswers.getD i none = none →
          row.userAnswer = "" ∧ row.correctness = "Incorrect" ∧
          row.timeElapsedSec = 0) ∧
        (∀ r : UserAnswer, userAnswers.getD i none = some r → r.correctness ≠ "" →
          row.userAnswer = r.answer ∧ row.correctness = r.correctness ∧
          row.timeElapsedSec = r.timeElapsed)) := by
  constructor
  · simp [prepareSessionResultsForCsv]
  · intro i q hq
    refine ⟨csvRowFor userAnswers timeAllocated timestamp (i, q), ?_,
      rfl, rfl, rfl, rfl, rfl, rfl, rfl, rfl, ?_, ?_⟩
    · unfold prepareSessionResultsForCsv
      rw [List.getElem?_map, List.getElem?_enum, hq]
      rfl
    · intro hnone
      rw [List.getD_eq_getElem?_getD] at hnone
      simp [csvRowFor, hnone, jsOrString, jsOrNat]
    · intro r hr hcor
      rw [List.getD_eq_getElem?_getD] at hr
      simp only [csvRowFor, List.getD_eq_getElem?_getD, hr]
      refine ⟨?_, ?_, ?_⟩
      · simp only [jsOrString]
        split
        · rename_i hh
          exact hh.symm
        · rfl
      · simp [jsOrString, hcor]
      · simp only [jsOrNat]
        split
        · rename_i hh
          exact hh.symm
        · rfl

/-- A concrete one-question working set for the CSV witness. -/
def csvQuestion : Question :=
  { id := "i1", category := "Sci>Bio", subjectBroad := "Sci",
    subjectSpecific := "Bio", question := "q1", answers := ["a"],
    level := "Varsity", author := "me" }

/-- A concrete recorded answer for the CSV witness. -/
def csvAnswer : UserAnswer :=
  { answer := "mito", correctness := "Correct", timeElapsed := 4, timestamp := 9 }

/-- Claim C10 witness: the row characterization applied to a concrete
one-question working set with a recorded answer. -/
theorem ncal_c10_csv_rows_witness :
    ∃ row : CsvRow,
      (prepareSessionResultsForCsv [csvQuestion] [some csvAnswer] 10 "ts")[0]? =
        some row ∧
      row.userAnswer = "mito" ∧ row.correctness = "Correct" ∧
      row.timeElapsedSec = 4 := by
  obtain ⟨row, hrow, _, _, _, _, _, _, _, _, _, hsome⟩ :=
    (ncal_c10_csv_rows [csvQuestion] [some csvAnswer] 10 "ts").2 0 csvQuestion rfl
  obtain ⟨h1, h2, h3⟩ := hsome csvAnswer rfl (by decide)
  exact ⟨row, hrow, h1, h2, h3⟩

/-! ## Punctuation removal (C3) and conditional idempotence (C4) -/

/-- Claim C3 (code bug): a punctuation character from the claimed set is
NOT removed by normalize unless it is immediately followed by the literal
three characters open-brace close-brace close-bracket, because the
doubly-escaped brackets in the regexp literal of normalize.js line 22
close the character class early.  At the failing input, a lone period
survives normalization, while a period followed by the literal bracket
sequence is removed together with it. -/
theorem ncal_c3_punct_removal :
    normalize "." = "." ∧ '.' ∈ (normalize ".").data ∧
    normalize ".{}]" = "" ∧
    punctClass '.' = true := by
  refine ⟨by decide, by decide, by decide, by decide⟩

theorem upChar_of_ascii_lower (c : Char) (h : 97 ≤ c.toNat ∧ c.toNat ≤ 122) :
    upChar c = Char.ofNat (c.toNat - 32) := by
  unfold upChar
  rw [if_pos h]

theorem upChar_of_not_ascii_lower (c : Char) (h : ¬ (97 ≤ c.toNat ∧ c.toNat ≤ 122)) :
    upChar c = c := by
  unfold upChar
  rw [if_neg h]

theorem toNat_ofNat_of_lt (n : Nat) (h : n < 0xd800) : (Char.ofNat n).toNat = n := by
  unfold Char.ofNat
  rw [dif_pos (Or.inl h)]
  rfl

theorem upChar_toNat_of_lower (c : Char) (h : 97 ≤ c.toNat ∧ c.toNat ≤ 122) :
    (upChar c).toNat = c.toNat - 32 := by
  rw [upChar_of_ascii_lower c h]
  exact toNat_ofNat_of_lt _ (by omega)

theorem upChar_upChar (c : Char) : upChar (upChar c) = upChar c := by
  by_cases h : 97 ≤ c.toNat ∧ c.toNat ≤ 122
  · have h2 := upChar_toNat_of_lower c h
    exact upChar_of_not_ascii_lower (upChar c) (by omega)
  · rw [upChar_of_not_ascii_lower c h]
    exact upChar_of_not_ascii_lower c h

theorem mem_replaceHyphens_ne_hyphen (l : List Char) :
    ∀ c ∈ replaceHyphens l, c ≠ '-' := by
  intro c hc
  simp only [replaceHyphens, List.mem_map] at hc
  obtain ⟨a, _, ha⟩ := hc
  subst ha
  split
  · decide
  · rename_i hne
    exact hne

theorem mem_replaceHyphens_map_upChar_fixed (l : List Char) :
    ∀ c ∈ replaceHyphens (l.map upChar), upChar c = c := by
  intro c hc
  simp only [replaceHyphens, List.mem_map] at hc
  obtain ⟨a, ha, hc2⟩ := hc
  obtain ⟨b, _, hb⟩ := ha
  subst hc2
  split
  · decide
  · subst hb
    exact upChar_upChar b

theorem mem_removePunct {c : Char} {l : List Char} (h : c ∈ removePunct l) : c ∈ l := by
  induction l using removePunct.induct with
  | case1 c0 rest hp ih =>
    rw [removePunct] at h
    rw [if_pos hp] at h
    exact List.mem_cons_of_mem _ (by
      refine List.mem_cons_of_mem _ (List.mem_cons_of_mem _ (List.mem_cons_of_mem _ (ih h))))
  | case2 c0 rest hp ih =>
    rw [removePunct] at h
    rw [if_neg hp] at h
    rcases List.mem_cons.mp h with h2 | h2
    · exact h2 ▸ List.mem_cons_self _ _
    · exact List.mem_cons_of_mem _ (ih h2)
  | case3 c0 rest hshape ih =>
    rw [removePunct.eq_2 c0 rest hshape] at h
    rcases List.mem_cons.mp h with h2 | h2
    · exact h2 ▸ List.mem_cons_self _ _
    · exact List.mem_cons_of_mem _ (ih h2)
  | case4 => simp [removePunct] at h

theorem mem_collapseWsGo {c : Char} {l : List Char} {b : Bool}
    (h : c ∈ collapseWsGo b l) : c ∈ l ∨ c = ' ' := by
  induction l generalizing b with
  | nil => simp [collapseWsGo] at h
  | cons d rest ih =>
    rw [collapseWsGo] at h
    by_cases hd : isJsWs d
    · rw [if_pos hd] at h
      cases b with
      | true =>
        rcases ih h with h2 | h2
        · exact Or.inl (List.mem_cons_of_mem _ h2)
        · exact Or.inr h2
      | false =>
        rcases List.mem_cons.mp h with h2 | h2
        · exact Or.inr h2
        · rcases ih h2 with h3 | h3
          · exact Or.inl (List.mem_cons_of_mem _ h3)
          · exact Or.inr h3
    · rw [if_neg hd] at h
      rcases List.mem_cons.mp h with h2 | h2
      · exact Or.inl (h2 ▸ List.mem_cons_self _ _)
      · rcases ih h2 with h3 | h3
        · exact Or.inl (List.mem_cons_of_mem _ h3)
        · exact Or.inr h3

theorem mem_stripArticle {c : Char} {l : List Char} (h : c ∈ stripArticle l) : c ∈ l := by
  unfold stripArticle at h
  split at h
  · exact List.drop_subset _ _ h
  · split at h
    · exact List.drop_subset _ _ h
    · split at h
      · exact List.drop_subset _ _ h
      · exact h

theorem mem_normalizeList_fixed (l : List Char) :
    ∀ c ∈ normalizeList l, upChar c = c ∧ c ≠ '-' := by
  intro c hc
  unfold normalizeList at hc
  have h1 := mem_stripArticle hc
  rcases mem_collapseWsGo h1 with h2 | h2
  · have h3 := mem_removePunct h2
    refine ⟨mem_replaceHyphens_map_upChar_fixed _ c h3, ?_⟩
    exact mem_replaceHyphens_ne_hyphen _ c h3
  · subst h2
    exact ⟨by decide, by decide⟩

/-- The head of a char list is absent or not JS whitespace. -/
def headNotWs (l : List Char) : Bool :=
  match l.head? with
  | some d => !(isJsWs d)
  | none => true

/-- Whitespace-normal form: every whitespace character is a single space
never followed by further whitespace (the fixed points of collapseWs). -/
def wsNormedB : List Char → Bool
  | [] => true
  | c :: rest => (if isJsWs c then c = ' ' && headNotWs rest else true) && wsNormedB rest

theorem wsNormedB_tail {c : Char} {rest : List Char}
    (h : wsNormedB (c :: rest) = true) : wsNormedB rest = true := by
  rw [wsNormedB, Bool.and_eq_true] at h
  exact h.2

theorem collapseWsGo_and_headNotWs (l : List Char) :
    ∀ b : Bool, wsNormedB (collapseWsGo b l) = true ∧
      headNotWs (collapseWsGo true l) = true := by
  induction l with
  | nil => intro b; exact ⟨rfl, rfl⟩
  | cons c rest ih =>
    intro b
    by_cases hc : isJsWs c
    · constructor
      · rw [collapseWsGo, if_pos hc]
        cases b with
        | true => exact (ih true).1
        | false =>
          simp only [wsNormedB, Bool.and_eq_true]
          refine ⟨?_, (ih true).1⟩
          simp [isJsWs, (ih true).2]
      · rw [collapseWsGo, if_pos hc]
        exact (ih true).2
    · constructor
      · rw [collapseWsGo, if_neg hc]
        simp only [wsNormedB, Bool.and_eq_true]
        refine ⟨?_, (ih false).1⟩
        simp [hc]
      · rw [collapseWsGo, if_neg hc]
        simp [headNotWs, hc]

theorem wsNormedB_collapseWs (l : List Char) : wsNormedB (collapseWs l) = true :=
  (collapseWsGo_and_headNotWs l false).1

theorem collapseWsGo_true_of_headNotWs (l : List Char) (h : headNotWs l = true) :
    collapseWsGo true l = collapseWsGo false l := by
  cases l with
  | nil => rfl
  | cons d rest =>
    simp only [headNotWs, List.head?_cons, Bool.not_eq_true'] at h
    rw [collapseWsGo, collapseWsGo, if_neg (by simp [h]), if_neg (by simp [h])]

theorem collapseWs_eq_self (l : List Char) (h : wsNormedB l = true) :
    collapseWs l = l := by
  unfold collapseWs
  induction l with
  | nil => rfl
  | cons c rest ih =>
    have htail := wsNormedB_tail h
    simp only [wsNormedB, Bool.and_eq_true] at h
    by_cases hc : isJsWs c
    · rw [if_pos hc] at h
      rw [Bool.and_eq_true, decide_eq_true_eq] at h
      obtain ⟨⟨hsp, hhead⟩, _⟩ := h
      rw [collapseWsGo, if_pos hc, collapseWsGo_true_of_headNotWs rest hhead,
        ih htail, hsp]
      simp
    · rw [collapseWsGo, if_neg hc, ih htail]

theorem wsNormedB_drop (l : List Char) (n : Nat) (h : wsNormedB l = true) :
    wsNormedB (l.drop n) = true := by
  induction n generalizing l with
  | zero => exact h
  | succ m ih =>
    cases l with
    | nil => rfl
    | cons c rest => exact ih rest (wsNormedB_tail h)

theorem wsNormedB_stripArticle (l : List Char) (h : wsNormedB l = true) :
    wsNormedB (stripArticle l) = true := by
  unfold stripArticle
  split
  · exact wsNormedB_drop l 4 h
  · split
    · exact wsNormedB_drop l 2 h
    · split
      · exact wsNormedB_drop l 3 h
      · exact h

theorem wsNormedB_normalizeList (l : List Char) :
    wsNormedB (normalizeList l) = true :=
  wsNormedB_stripArticle _ (wsNormedB_collapseWs _)

theorem map_eq_self_of_fixed (f : Char → Char) (l : List Char)
    (h : ∀ c ∈ l, f c = c) : l.map f = l := by
  induction l with
  | nil => rfl
  | cons c rest ih =>
    rw [List.map_cons, h c (List.mem_cons_self c rest),
      ih (fun d hd => h d (List.mem_cons_of_mem c hd))]

theorem map_upChar_normalizeList (l : List Char) :
    (normalizeList l).map upChar = normalizeList l :=
  map_eq_self_of_fixed _ _ (fun c hc => (mem_normalizeList_fixed l c hc).1)

theorem replaceHyphens_normalizeList (l : List Char) :
    replaceHyphens (normalizeList l) = normalizeList l := by
  unfold replaceHyphens
  refine map_eq_self_of_fixed _ _ (fun c hc => ?_)
  rw [if_neg (mem_normalizeList_fixed l c hc).2]

/-- Claim C4 (amended: normalize is idempotent only conditionally): for
every string s whose normalized form is unchanged by trimming, unchanged
by the punctuation-pattern removal, and does not begin with a leading
article (THE, A or AN followed by a space), a second application of
normalize leaves it unchanged; the upper-casing, hyphen-replacement and
whitespace-collapsing stages never change a normalized form, so those
three conditions are exactly what a second pass can still alter.  The
unconditional claim fails: stripping one leading article can expose
another (see the counterexample), a hyphen at either end becomes an
untrimmed space, and punctuation removal can splice a new removable
pattern together. -/
theorem ncal_c4_idempotent_conditional (s : String)
    (htrim : jsTrim (normalize s) = normalize s)
    (hpunct : removePunct (normalize s).data = (normalize s).data)
    (harticle : stripArticle (normalize s).data = (normalize s).data) :
    normalize (normalize s) = normalize s := by
  have hdata : jsTrimList (normalize s).data = (normalize s).data :=
    congrArg String.data htrim
  show String.mk (normalizeList (normalize s).data) = normalize s
  have hpipe : normalizeList (normalize s).data = (normalize s).data := by
    show stripArticle (collapseWs (removePunct (replaceHyphens
      ((jsTrimList (normalize s).data).map upChar)))) = (normalize s).data
    rw [hdata]
    have hns : (normalize s).data = normalizeList s.data := rfl
    rw [hns, map_upChar_normalizeList, replaceHyphens_normalizeList, ← hns,
      hpunct, hns, collapseWs_eq_self _ (wsNormedB_normalizeList s.data), ← hns,
      harticle]
  rw [hpipe]

/-- Claim C4 counterexample: normalizing the string (the an x) yields
(AN X), whose own normalization strips the newly exposed article and
yields (X), so normalize composed with itself differs from normalize. -/
theorem ncal_c4_counterexample :
    normalize (normalize "the an x") ≠ normalize "the an x" := by
  decide

/-- Claim C4 witness: the conditional idempotence applied to a concrete
string meeting all three side conditions. -/
theorem ncal_c4_idempotent_conditional_witness :
    normalize (normalize "hello world") = normalize "hello world" :=
  ncal_c4_idempotent_conditional "hello world" (by decide) (by decide) (by decide)


/-! ## Filter resolution with fallback escalation (C5) -/

theorem size_shuffleGo (rand : Nat → Nat) (arr : Array α) (i : Nat) :
    (shuffleGo rand arr i).size = arr.size := by
  induction i generalizing arr with
  | zero => rfl
  | succ m ih =>
    rw [shuffleGo]
    rw [ih]
    exact Array.size_swap! _ _ _

theorem length_shuffleArray (rand : Nat → Nat) (l : List α) :
    (shuffleArray rand l).length = l.length := by
  unfold shuffleArray
  cases hl : l.length with
  | zero => exact hl
  | succ n =>
    rw [Array.length_toList, size_shuffleGo, Array.size_toArray, hl]

theorem length_filterQuestions (rand : Nat → Nat) (pool : List Question)
    (dom : FilterDom) :
    (filterQuestions rand pool dom).length =
      (pool.filter (questionMatches (selectedSubjects dom) dom.level)).length :=
  length_shuffleArray rand _

/-- The four candidate filter states tried by startPracticeSession, in
order: the user selection, then (when no subjects were selected) all
subjects selected, then additionally the level cleared, then additionally
all available subjects selected. -/
def fallbackDoms (dom : FilterDom) : List FilterDom :=
  let d1 := if (selectedSubjects dom).length = 0 then selectAllSubjects dom else dom
  let d2 := clearLevelFilter d1
  let d3 := selectAllSubjects d2
  [dom, d1, d2, d3]

/-- Modelled from the spec: resolution tries the candidate filter states
in order and stops at the first whose filtered working set is non-empty;
when every candidate yields an empty set, exhaustion is signalled. -/
def firstNonEmpty (rand : Nat → Nat) (pool : List Question) :
    List FilterDom → Option (FilterDom × List Question)
  | [] => none
  | d :: ds =>
    let ws := filterQuestions rand pool d
    if ws.length ≠ 0 then some (d, ws) else firstNonEmpty rand pool ds

theorem resolveFilters_eq_cascade (rand : Nat → Nat) (pool : List Question)
    (dom : FilterDom) :
    resolveFilters rand pool dom = firstNonEmpty rand pool (fallbackDoms dom) := by
  unfold resolveFilters firstNonEmpty fallbackDoms
  by_cases h0 : (filterQuestions rand pool dom).length ≠ 0
  · simp [h0]
  · by_cases hsel : (selectedSubjects dom).length = 0
    · simp [h0, hsel, firstNonEmpty]
    · simp [h0, hsel, firstNonEmpty]

theorem selectAllSubjects_invariants (pool : List Question) (dom : FilterDom)
    (hinv1 : ∀ b ∈ dom.boxes, b.disabled = false → ∃ qq ∈ pool, qq.category = b.value)
    (hinv2 : ∀ b ∈ dom.boxes, b.disabled = true → b.checked = false) :
    (∀ b ∈ (selectAllSubjects dom).boxes, b.disabled = false →
      ∃ qq ∈ pool, qq.category = b.value) ∧
    (∀ b ∈ (selectAllSubjects dom).boxes, b.disabled = true → b.checked = false) := by
  constructor
  · intro b hb hd
    simp only [selectAllSubjects, List.mem_map] at hb
    obtain ⟨b0, hb0, hbeq⟩ := hb
    by_cases hdis : b0.disabled
    · rw [if_pos hdis] at hbeq
      subst hbeq
      exact hinv1 b0 hb0 hd
    · rw [if_neg hdis] at hbeq
      subst hbeq
      exact hinv1 b0 hb0 (by simpa using hdis)
  · intro b hb hd
    simp only [selectAllSubjects, List.mem_map] at hb
    obtain ⟨b0, hb0, hbeq⟩ := hb
    by_cases hdis : b0.disabled
    · rw [if_pos hdis] at hbeq
      subst hbeq
      exact hinv2 b0 hb0 hd
    · rw [if_neg hdis] at hbeq
      subst hbeq
      exact absurd (by simpa using hd) hdis

theorem filter_final_stage_ne_nil (rand : Nat → Nat) (pool : List Question)
    (dom0 : FilterDom) (hpool : pool ≠ [])
    (hinv1 : ∀ b ∈ dom0.boxes, b.disabled = false → ∃ qq ∈ pool, qq.category = b.value)
    (hinv2 : ∀ b ∈ dom0.boxes, b.disabled = true → b.checked = false) :
    filterQuestions rand pool (selectAllSubjects (clearLevelFilter dom0)) ≠ [] := by
  intro hcontra
  have hlen := length_filterQuestions rand pool (selectAllSubjects (clearLevelFilter dom0))
  rw [hcontra] at hlen
  have hfilter : pool.filter (questionMatches
      (selectedSubjects (selectAllSubjects (clearLevelFilter dom0)))
      (selectAllSubjects (clearLevelFilter dom0)).level) = [] :=
    List.length_eq_zero.mp hlen.symm
  have hlevel : (selectAllSubjects (clearLevelFilter dom0)).level = "" := rfl
  by_cases hex : ∃ b ∈ dom0.boxes, b.disabled = false
  · obtain ⟨b, hb, hbd⟩ := hex
    obtain ⟨qq, hqq, hqcat⟩ := hinv1 b hb hbd
    have hmem : ({ b with checked := true } : Checkbox) ∈
        (selectAllSubjects (clearLevelFilter dom0)).boxes := by
      simp only [selectAllSubjects, clearLevelFilter, List.mem_map]
      exact ⟨b, hb, by rw [if_neg (by simp [hbd])]⟩
    have hsel : b.value ∈ selectedSubjects (selectAllSubjects (clearLevelFilter dom0)) := by
      simp only [selectedSubjects, List.mem_map, List.mem_filter]
      exact ⟨{ b with checked := true }, ⟨hmem, rfl⟩, rfl⟩
    have hmatch : questionMatches
        (selectedSubjects (selectAllSubjects (clearLevelFilter dom0)))
        (selectAllSubjects (clearLevelFilter dom0)).level qq = true := by
      rw [hlevel]
      simp only [questionMatches, Bool.and_eq_true, Bool.or_eq_true]
      constructor
      · right
        rw [hqcat]
        exact List.elem_iff.mpr hsel
      · left
        rfl
    have hqmem : qq ∈ pool.filter (questionMatches
        (selectedSubjects (selectAllSubjects (clearLevelFilter dom0)))
        (selectAllSubjects (clearLevelFilter dom0)).level) :=
      List.mem_filter.mpr ⟨hqq, hmatch⟩
    rw [hfilter] at hqmem
    exact List.not_mem_nil qq hqmem
  · push_neg at hex
    have hall : ∀ b ∈ dom0.boxes, b.disabled = true := by
      intro b hb
      simpa using hex b hb
    have hnosel : selectedSubjects (selectAllSubjects (clearLevelFilter dom0)) = [] := by
      simp only [selectedSubjects, selectAllSubjects, clearLevelFilter]
      rw [List.eq_nil_iff_forall_not_mem]
      intro v hv
      simp only [List.mem_map, List.mem_filter, List.mem_map] at hv
      obtain ⟨b, ⟨⟨b0, hb0, hbeq⟩, hchecked⟩, _⟩ := hv
      have hd0 := hall b0 hb0
      rw [if_pos hd0] at hbeq
      subst hbeq
      rw [hinv2 b0 hb0 hd0] at hchecked
      exact Bool.false_ne_true hchecked
    obtain ⟨q0, hq0⟩ : ∃ q0, q0 ∈ pool := List.exists_mem_of_ne_nil pool hpool
    have hmatch : questionMatches
        (selectedSubjects (selectAllSubjects (clearLevelFilter dom0)))
        (selectAllSubjects (clearLevelFilter dom0)).level q0 = true := by
      rw [hlevel, hnosel]
      simp [questionMatches]
    have hqmem : q0 ∈ pool.filter (questionMatches
        (selectedSubjects (selectAllSubjects (clearLevelFilter dom0)))
        (selectAllSubjects (clearLevelFilter dom0)).level) :=
      List.mem_filter.mpr ⟨hq0, hmatch⟩
    rw [hfilter] at hqmem
    exact List.not_mem_nil q0 hqmem

/-- ui.js updateSubjectSelector establishes the checkbox invariant the
exhaustion theorem assumes: after it runs, an enabled checkbox names a
category with at least one question, and a disabled checkbox is
unchecked. -/
theorem updateSubjectSelector_invariants (questions : List Question) (dom : FilterDom) :
    (∀ b ∈ (updateSubjectSelector questions dom).boxes, b.disabled = false →
      ∃ qq ∈ questions, qq.category = b.value) ∧
    (∀ b ∈ (updateSubjectSelector questions dom).boxes, b.disabled = true →
      b.checked = false) := by
  constructor
  · intro b hb hd
    simp only [updateSubjectSelector, List.mem_map] at hb
    obtain ⟨b0, hb0, hbeq⟩ := hb
    subst hbeq
    simp only [Bool.not_eq_false'] at hd
    obtain ⟨qq, hqq, hcat⟩ := List.any_eq_true.mp hd
    exact ⟨qq, hqq, by simpa using hcat⟩
  · intro b hb hd
    simp only [updateSubjectSelector, List.mem_map] at hb
    obtain ⟨b0, hb0, hbeq⟩ := hb
    subst hbeq
    simp only [Bool.not_eq_true'] at hd
    simp [hd]

theorem firstNonEmpty_ne_none_of_mem (rand : Nat → Nat) (pool : List Question)
    (ds : List FilterDom) (d : FilterDom) (hm : d ∈ ds)
    (hne : filterQuestions rand pool d ≠ []) :
    firstNonEmpty rand pool ds ≠ none := by
  induction ds with
  | nil => simp at hm
  | cons d0 ds ih =>
    intro hcontra
    unfold firstNonEmpty at hcontra
    by_cases h0 : (filterQuestions rand pool d0).length ≠ 0
    · rw [if_pos h0] at hcontra
      exact Option.noConfusion hcontra
    · rw [if_neg h0] at hcontra
      rcases List.mem_cons.mp hm with hd | hd
      · subst hd
        simp only [ne_eq, Decidable.not_not] at h0
        exact hne (List.length_eq_zero.mp h0)
      · exact ih hd hcontra

/-- Claim C5: at session start the engine resolves the filters by trying,
in exactly this order and stopping at the first non-empty working set:
the user selection, then all subjects when none were selected, then the
selection with the level filter cleared, then all available subjects with
the level cleared; and under the checkbox invariant that
updateSubjectSelector maintains (an enabled checkbox names a category
with at least one question, a disabled checkbox is unchecked), resolution
signals the no-questions-available condition exactly when the loaded pool
is empty. -/
theorem ncal_c5_filter_fallbacks (rand : Nat → Nat) (pool : List Question)
    (dom : FilterDom)
    (hinv1 : ∀ b ∈ dom.boxes, b.disabled = false → ∃ qq ∈ pool, qq.category = b.value)
    (hinv2 : ∀ b ∈ dom.boxes, b.disabled = true → b.checked = false) :
    resolveFilters rand pool dom = firstNonEmpty rand pool (fallbackDoms dom) ∧
    (resolveFilters rand pool dom = none ↔ pool = []) := by
  refine ⟨resolveFilters_eq_cascade rand pool dom, ?_, ?_⟩
  · intro hnone
    by_contra hpool
    rw [resolveFilters_eq_cascade] at hnone
    by_cases hsel : (selectedSubjects dom).length = 0
    · have h1 := selectAllSubjects_invariants pool dom hinv1 hinv2
      have h2 := filter_final_stage_ne_nil rand pool (selectAllSubjects dom)
        hpool h1.1 h1.2
      refine firstNonEmpty_ne_none_of_mem rand pool (fallbackDoms dom)
        (selectAllSubjects (clearLevelFilter (selectAllSubjects dom))) ?_ h2 hnone
      simp [fallbackDoms, hsel]
    · have h2 := filter_final_stage_ne_nil rand pool dom hpool hinv1 hinv2
      refine firstNonEmpty_ne_none_of_mem rand pool (fallbackDoms dom)
        (selectAllSubjects (clearLevelFilter dom)) ?_ h2 hnone
      simp [fallbackDoms, hsel]
  · intro hpool
    subst hpool
    have hf : ∀ d, filterQuestions rand [] d = [] := fun d => rfl
    unfold resolveFilters
    simp [hf]
    split <;> rfl

/-- A one-question pool for the C5 witness. -/
def c5Question : Question :=
  { id := "q1", category := "Sci>Bio", subjectBroad := "Sci",
    subjectSpecific := "Bio", question := "q", answers := ["a"],
    level := "Varsity", author := "me" }

/-- A filter DOM for the C5 witness: nothing checked, a level selected
that matches no question, and a disabled unchecked checkbox. -/
def c5Dom : FilterDom :=
  { boxes := [{ value := "Sci>Bio", checked := false, disabled := false },
              { value := "Math>Calc", checked := false, disabled := true }],
    level := "Freshman" }

/-- Claim C5 witness: resolution on a concrete pool and checkbox state
that satisfies the invariant and needs the level-clearing fallback. -/
theorem ncal_c5_filter_fallbacks_witness :
    resolveFilters (fun _ => 0) [c5Question] c5Dom =
      firstNonEmpty (fun _ => 0) [c5Question] (fallbackDoms c5Dom) ∧
    (resolveFilters (fun _ => 0) [c5Question] c5Dom = none ↔
      ([c5Question] : List Question) = []) :=
  ncal_c5_filter_fallbacks (fun _ => 0) [c5Question] c5Dom (by decide) (by decide)


end Ncal
